import Mathlib

/-!
# Verification of warp's body filters

A shallow embedding of `src/filters/body.rs`: the `concat()` and `json()`
filters, their deferred values `ConcatFut` and `JsonFut`, and the
surrounding route/filter plumbing.  The body stream is modelled as the
script of responses it gives to successive polls, so every interleaving of
polls with chunk arrivals is one concrete script.
-/

namespace Warp

/-- A byte chunk delivered by the request body stream (`hyper::Chunk`);
bytes are modelled as naturals. -/
abbrev Chunk := List Nat

/-- One response of the underlying body stream (a `futures 0.1` `Stream`)
to a single poll: `Ok(Ready(Some(c)))`, `Ok(Ready(None))`, `Ok(NotReady)`,
or `Err(e)`. -/
inductive StreamPoll where
  | chunk (c : Chunk)
  | eof
  | notReady
  | fail
deriving DecidableEq

/-- The request body stream, scripted as the list of its successive poll
responses; an exhausted script answers NotReady forever. -/
abbrev Body := List StreamPoll

/-- Modelled from the spec: the repository's `Error` type is defined outside
src/ (`use ::Error` in body.rs); per §3/§7 it is an "opaque failure signal",
and body.rs applies it as `Error(())`, a marker with no payload. -/
inductive Error where
  | mk
deriving DecidableEq

/-- Result of one poll of a future (`Poll<Item, Error>` in futures 0.1),
with an explicit constructor recording that the poll panicked. -/
inductive FutPoll (α : Type) where
  | notReady
  | ready (a : α)
  | error (e : Error)
  | panicked
deriving DecidableEq

/-- The accumulation state of `futures::stream::Concat2` (its internal
`Inner`): nothing received yet, a buffer being extended, or finished. -/
inductive ConcatInner where
  | first
  | extending (buf : Chunk)
  | done
deriving DecidableEq

/-- `ConcatFut` from body.rs: wraps `Concat2<Body>`, i.e. the remaining
stream script together with the accumulation state. -/
structure ConcatFut where
  stream : Body
  extend : ConcatInner
deriving DecidableEq

/-- One poll of `Concat2` (translated from futures 0.1 `ConcatSafe::poll`,
which `ConcatFut::poll` delegates to, with body.rs mapping any stream error
to the opaque `Error(())`): loop polling the stream; on a chunk, start or
extend the buffer (a chunk arriving in the finished state is
`unreachable!()`); on end-of-stream, yield the buffer (or the empty default)
and finish, or panic ("cannot poll Concat again") if already finished; on
NotReady, return NotReady; on a stream error, finish and return the error
marker. -/
def concatStep : Body → ConcatInner → FutPoll Chunk × ConcatFut
  | [], ext => (.notReady, ⟨[], ext⟩)
  | .chunk c :: rest, .first => concatStep rest (.extending c)
  | .chunk c :: rest, .extending b => concatStep rest (.extending (b ++ c))
  | .chunk _ :: rest, .done => (.panicked, ⟨rest, .done⟩)
  | .eof :: rest, .first => (.ready [], ⟨rest, .done⟩)
  | .eof :: rest, .extending b => (.ready b, ⟨rest, .done⟩)
  | .eof :: rest, .done => (.panicked, ⟨rest, .done⟩)
  | .notReady :: rest, ext => (.notReady, ⟨rest, ext⟩)
  | .fail :: rest, _ => (.error .mk, ⟨rest, .done⟩)

/-- `ConcatFut::poll` from body.rs. -/
def pollConcat (f : ConcatFut) : FutPoll Chunk × ConcatFut :=
  concatStep f.stream f.extend

/-- The external driver for a `ConcatFut`: keep polling while NotReady,
with fuel bounding the number of polls. -/
def driveConcat : Nat → ConcatFut → FutPoll Chunk
  | 0, _ => .notReady
  | n + 1, f =>
    match pollConcat f with
    | (.notReady, f') => driveConcat n f'
    | (r, _) => r

/-- Drive a `ConcatFut` to completion: one poll per remaining script entry
always suffices, so the result is the future's final outcome (NotReady
meaning the script ended with the future still pending). -/
def runConcat (f : ConcatFut) : FutPoll Chunk :=
  driveConcat (f.stream.length + 1) f

/-- The chunks the stream script delivers before it ends (or fails), in
arrival order. -/
def arrivedChunks : Body → List Chunk
  | [] => []
  | .chunk c :: rest => c :: arrivedChunks rest
  | .eof :: _ => []
  | .notReady :: rest => arrivedChunks rest
  | .fail :: _ => []

/-- Big-step view of accumulation: the final outcome of driving the
accumulator, computed directly over the stream script. -/
def accumOutcome : Body → ConcatInner → FutPoll Chunk
  | [], _ => .notReady
  | .chunk c :: rest, .first => accumOutcome rest (.extending c)
  | .chunk c :: rest, .extending b => accumOutcome rest (.extending (b ++ c))
  | .chunk _ :: _, .done => .panicked
  | .eof :: _, .first => .ready []
  | .eof :: _, .extending b => .ready b
  | .eof :: _, .done => .panicked
  | .notReady :: rest, ext => accumOutcome rest ext
  | .fail :: _, _ => .error .mk

/-- `JsonFut<T>` from body.rs: a `ConcatFut` plus a phantom marker of the
target type (the marker has no runtime content, so only the delegate is
carried). -/
structure JsonFut where
  concat : ConcatFut
deriving DecidableEq

/-- `JsonFut::poll` from body.rs, with `serde_json::from_slice` abstracted
as a decode function `dec`: `try_ready!(self.concat.poll())` propagates
NotReady and errors (and a panic in the delegate aborts the poll); once the
buffer is ready, a successful decode yields the value and a decode error
yields the opaque `Error(())`. -/
def pollJson {T : Type} (dec : Chunk → Option T) (f : JsonFut) :
    FutPoll T × JsonFut :=
  match pollConcat f.concat with
  | (.ready buf, f') =>
    match dec buf with
    | some v => (.ready v, ⟨f'⟩)
    | none => (.error .mk, ⟨f'⟩)
  | (.notReady, f') => (.notReady, ⟨f'⟩)
  | (.error e, f') => (.error e, ⟨f'⟩)
  | (.panicked, f') => (.panicked, ⟨f'⟩)

/-- The external driver for a `JsonFut`. -/
def driveJson {T : Type} (dec : Chunk → Option T) : Nat → JsonFut → FutPoll T
  | 0, _ => .notReady
  | n + 1, f =>
    match pollJson dec f with
    | (.notReady, f') => driveJson dec n f'
    | (r, _) => r

/-- Drive a `JsonFut` to completion. -/
def runJson {T : Type} (dec : Chunk → Option T) (f : JsonFut) : FutPoll T :=
  driveJson dec (f.concat.stream.length + 1) f

/-- The decode stage applied to a finished accumulator outcome. -/
def decodeStage {T : Type} (dec : Chunk → Option T) :
    FutPoll Chunk → FutPoll T
  | .ready buf =>
    match dec buf with
    | some v => .ready v
    | none => .error .mk
  | .notReady => .notReady
  | .error e => .error e
  | .panicked => .panicked

/-- The two-stage reference for `json`, following the spec's words (§4.5,
§4.4): first drive `concat()`'s accumulator to completion, then decode the
resulting buffer. -/
def jsonRef {T : Type} (dec : Chunk → Option T) (f : JsonFut) : FutPoll T :=
  decodeStage dec (runConcat f.concat)

/-- Modelled from the spec: the Route Context (route.rs is not under src/),
§3: "remaining unmatched path, method, headers, and an optional owned body
stream"; method, headers and path are uninterpreted data. -/
structure RouteContext where
  body : Option Body
  method : Nat
  headers : List (Nat × Nat)
  pathRest : List Nat
deriving DecidableEq

/-- Modelled from the spec: `take_body() -> Option<BodyStream>` (§4.2, §9):
a check-and-clear of the option slot — the first call on a context holding a
body yields the stream, every later call yields nothing.  (The source's
`route.take_body().map(|body| body.unwrap() ...)` goes through route.rs's
richer return type, which is not under src/; the spec's signature yields the
stream directly.) -/
def RouteContext.take_body (rc : RouteContext) : Option Body × RouteContext :=
  (rc.body, { rc with body := none })

/-- The outcome of applying one filter to a Route Context: an extracted
(one-element) tuple together with the mutated context, or a rejection
failing the chain.  Modelled from the spec (§4.1; filter.rs with `Filter`,
`Cons` and `filter_fn_cons` is not under src/), with the rejection carrying
the opaque marker of §7. -/
inductive FilterOutcome (α : Type) where
  | extracted (a : α) (rc : RouteContext)
  | rejected (e : Error)

/-- `concat()` from body.rs: take the body out of the Route Context and
extract a fresh `ConcatFut` over it; when the body is unavailable the filter
fails the chain (the `filter_fn_cons` plumbing turning the absent body into
a rejection is modelled from the spec, §4.2/§7). -/
def concat (rc : RouteContext) : FilterOutcome ConcatFut :=
  match rc.take_body with
  | (some b, rc') => .extracted ⟨b, .first⟩ rc'
  | (none, _) => .rejected .mk

/-- `json::<T>()` from body.rs: `concat()` mapped so that the extracted
accumulator is wrapped into a `JsonFut` (the phantom marker has no runtime
content). -/
def json (rc : RouteContext) : FilterOutcome JsonFut :=
  match concat rc with
  | .extracted f rc' => .extracted ⟨f⟩ rc'
  | .rejected e => .rejected e

/-- The outcome of one whole request. -/
inductive RequestOutcome (R : Type) where
  | replied (r : R)
  | rejectedReq (e : Error)
  | pending
  | panicked
deriving DecidableEq

/-- Modelled from the spec: the outer execution driver (§2) for a route
built from `concat()` and a handler — apply the filter, drive the extracted
deferred value to completion, and invoke the handler on the buffer or
reject the request on failure.  The boolean reports whether the handler was
invoked. -/
def runConcatRoute {R : Type} (handler : Chunk → R) (rc : RouteContext) :
    RequestOutcome R × Bool :=
  match concat rc with
  | .rejected e => (.rejectedReq e, false)
  | .extracted f _ =>
    match runConcat f with
    | .ready buf => (.replied (handler buf), true)
    | .error e => (.rejectedReq e, false)
    | .notReady => (.pending, false)
    | .panicked => (.panicked, false)

/-- Modelled from the spec: the outer execution driver (§2) for a route
built from `json::<T>()` and a handler. -/
def runJsonRoute {T R : Type} (dec : Chunk → Option T) (handler : T → R)
    (rc : RouteContext) : RequestOutcome R × Bool :=
  match json rc with
  | .rejected e => (.rejectedReq e, false)
  | .extracted f _ =>
    match runJson dec f with
    | .ready v => (.replied (handler v), true)
    | .error e => (.rejectedReq e, false)
    | .notReady => (.pending, false)
    | .panicked => (.panicked, false)

/-- Modelled from the spec: the filter composition algebra (§4.1; filter.rs
is not under src/).  A deep embedding of filters over a common value type:
extract a fixed tuple, reject, take the body and extract from it, chain two
filters (concatenating their tuples, short-circuiting on failure), or map a
pure transform over the extracted tuple. -/
inductive FilterExpr where
  | pureF (xs : List Nat)
  | rejectF
  | bodyF (k : Body → List Nat)
  | chainF (a b : FilterExpr)
  | mapF (a : FilterExpr) (f : List Nat → List Nat)

/-- Modelled from the spec: `apply(context)` for the filter algebra (§4.1):
run against the context, mutating it in place; `chain` runs the first
filter, short-circuits on its failure, otherwise runs the second on the
same mutated context and appends the tuples in declaration order. -/
def applyF : FilterExpr → RouteContext → Except Error (List Nat) × RouteContext
  | .pureF xs, rc => (.ok xs, rc)
  | .rejectF, rc => (.error .mk, rc)
  | .bodyF k, rc =>
    match rc.take_body with
    | (some b, rc') => (.ok (k b), rc')
    | (none, rc') => (.error .mk, rc')
  | .chainF a b, rc =>
    match applyF a rc with
    | (.ok xs, rc') =>
      match applyF b rc' with
      | (.ok ys, rc'') => (.ok (xs ++ ys), rc'')
      | (.error e, rc'') => (.error e, rc'')
    | (.error e, rc') => (.error e, rc')
  | .mapF a f, rc =>
    match applyF a rc with
    | (.ok xs, rc') => (.ok (f xs), rc')
    | (.error e, rc') => (.error e, rc')

/-- Ghost observation: how many successful body takes the evaluation of a
filter expression performs (a take succeeds when the slot still holds the
stream; later stages of a chain run only if earlier ones succeeded). -/
def takesF : FilterExpr → RouteContext → Nat
  | .pureF _, _ => 0
  | .rejectF, _ => 0
  | .bodyF _, rc => if rc.body.isSome then 1 else 0
  | .chainF a b, rc =>
    takesF a rc +
      match applyF a rc with
      | (.ok _, rc') => takesF b rc'
      | (.error _, _) => 0
  | .mapF a _, rc => takesF a rc

/-! ## Bridge between per-poll and big-step accumulator semantics -/

theorem concatStep_len (s : Body) :
    ∀ ext, ((concatStep s ext).2).stream.length ≤ s.length := by
  induction s with
  | nil => intro ext; simp [concatStep]
  | cons e rest ih =>
    intro ext
    cases e with
    | chunk c =>
      cases ext with
      | first => exact (ih (.extending c)).trans (Nat.le_succ _)
      | extending b => exact (ih (.extending (b ++ c))).trans (Nat.le_succ _)
      | done => simp [concatStep]
    | eof => cases ext <;> simp [concatStep]
    | notReady => simp [concatStep]
    | fail => simp [concatStep]

theorem concatStep_len_cons (e : StreamPoll) (rest : Body) (ext : ConcatInner) :
    ((concatStep (e :: rest) ext).2).stream.length ≤ rest.length := by
  cases e with
  | chunk c =>
    cases ext with
    | first => exact concatStep_len rest _
    | extending b => exact concatStep_len rest _
    | done => simp [concatStep]
  | eof => cases ext <;> simp [concatStep]
  | notReady => simp [concatStep]
  | fail => simp [concatStep]

theorem driveConcat_nil (n : Nat) (ext : ConcatInner) :
    driveConcat n ⟨[], ext⟩ = .notReady := by
  induction n with
  | zero => rfl
  | succ n ih => simpa [driveConcat, pollConcat, concatStep] using ih

/-- Continuation of the big-step outcome after one poll. -/
def contOutcome : FutPoll Chunk × ConcatFut → FutPoll Chunk
  | (.notReady, f') => accumOutcome f'.stream f'.extend
  | (r, _) => r

theorem accum_step (s : Body) :
    ∀ ext, accumOutcome s ext = contOutcome (concatStep s ext) := by
  induction s with
  | nil => intro ext; simp [accumOutcome, concatStep, contOutcome]
  | cons e rest ih =>
    intro ext
    cases e with
    | chunk c =>
      cases ext with
      | first => simpa [accumOutcome, concatStep] using ih (.extending c)
      | extending b =>
        simpa [accumOutcome, concatStep] using ih (.extending (b ++ c))
      | done => simp [accumOutcome, concatStep, contOutcome]
    | eof => cases ext <;> simp [accumOutcome, concatStep, contOutcome]
    | notReady => simp [accumOutcome, concatStep, contOutcome]
    | fail => simp [accumOutcome, concatStep, contOutcome]

theorem driveConcat_eq :
    ∀ (n : Nat) (f : ConcatFut), f.stream.length < n →
      driveConcat n f = accumOutcome f.stream f.extend := by
  intro n
  induction n with
  | zero => intro f h; exact absurd h (Nat.not_lt_zero _)
  | succ n ih =>
    intro f h
    rcases f with ⟨s, ext⟩
    cases s with
    | nil => simp [driveConcat, pollConcat, concatStep, accumOutcome, driveConcat_nil]
    | cons e rest =>
      have hlen : ((concatStep (e :: rest) ext).2).stream.length ≤ rest.length :=
        concatStep_len_cons e rest ext
      have hrest : rest.length < n := by
        simpa using Nat.lt_of_succ_lt_succ h
      rw [show accumOutcome (ConcatFut.mk (e :: rest) ext).stream
            (ConcatFut.mk (e :: rest) ext).extend
          = contOutcome (concatStep (e :: rest) ext) from accum_step _ _]
      simp only [driveConcat, pollConcat]
      rcases hp : concatStep (e :: rest) ext with ⟨r, f'⟩
      have hf' : f'.stream.length < n := by
        have := hlen
        rw [hp] at this
        exact Nat.lt_of_le_of_lt this hrest
      cases r with
      | notReady =>
        simpa [contOutcome] using ih f' hf'
      | ready a => simp [contOutcome]
      | error e => simp [contOutcome]
      | panicked => simp [contOutcome]

theorem runConcat_eq_accum (f : ConcatFut) :
    runConcat f = accumOutcome f.stream f.extend :=
  driveConcat_eq _ f (Nat.lt_succ_self _)

/-! ## What the accumulator's ready buffer contains -/

theorem accum_extending_ready (s : Body) :
    ∀ (b buf : Chunk), accumOutcome s (.extending b) = .ready buf →
      buf = b ++ (arrivedChunks s).flatten := by
  induction s with
  | nil => intro b buf h; exact absurd h (by simp [accumOutcome])
  | cons e rest ih =>
    intro b buf h
    cases e with
    | chunk c =>
      have h2 := ih (b ++ c) buf (by simpa [accumOutcome] using h)
      simpa [arrivedChunks, List.append_assoc] using h2
    | eof =>
      simp only [accumOutcome, FutPoll.ready.injEq] at h
      simp [arrivedChunks, ← h]
    | notReady =>
      simpa [arrivedChunks] using ih b buf (by simpa [accumOutcome] using h)
    | fail => exact absurd h (by simp [accumOutcome])

theorem accum_first_ready (s : Body) :
    ∀ buf, accumOutcome s .first = .ready buf → buf = (arrivedChunks s).flatten := by
  induction s with
  | nil => intro buf h; exact absurd h (by simp [accumOutcome])
  | cons e rest ih =>
    intro buf h
    cases e with
    | chunk c =>
      have h2 := accum_extending_ready rest c buf (by simpa [accumOutcome] using h)
      simpa [arrivedChunks] using h2
    | eof =>
      simp only [accumOutcome, FutPoll.ready.injEq] at h
      simp [arrivedChunks, ← h]
    | notReady =>
      simpa [arrivedChunks] using ih buf (by simpa [accumOutcome] using h)
    | fail => exact absurd h (by simp [accumOutcome])

theorem accum_fail_irrel (pre : Body) :
    ∀ ext (post post' : Body),
      accumOutcome (pre ++ .fail :: post) ext
        = accumOutcome (pre ++ .fail :: post') ext := by
  induction pre with
  | nil => intro ext post post'; simp [accumOutcome]
  | cons e rest ih =>
    intro ext post post'
    cases e with
    | chunk c =>
      cases ext with
      | first => simpa [accumOutcome] using ih (.extending c) post post'
      | extending b => simpa [accumOutcome] using ih (.extending (b ++ c)) post post'
      | done => simp [accumOutcome]
    | eof => cases ext <;> simp [accumOutcome]
    | notReady => simpa [accumOutcome] using ih ext post post'
    | fail => simp [accumOutcome]

/-! ## The finished accumulator never reports Ready again -/

theorem concatStep_ready_done (s : Body) :
    ∀ ext buf, (concatStep s ext).1 = .ready buf →
      ((concatStep s ext).2).extend = .done := by
  induction s with
  | nil => intro ext buf h; exact absurd h (by simp [concatStep])
  | cons e rest ih =>
    intro ext buf h
    cases e with
    | chunk c =>
      cases ext with
      | first => exact ih _ buf (by simpa [concatStep] using h)
      | extending b => exact ih _ buf (by simpa [concatStep] using h)
      | done => exact absurd h (by simp [concatStep])
    | eof => cases ext <;> simp [concatStep]
    | notReady => exact absurd h (by simp [concatStep])
    | fail => exact absurd h (by simp [concatStep])

theorem concatStep_done (s : Body) :
    (∀ buf, (concatStep s .done).1 ≠ .ready buf)
      ∧ ((concatStep s .done).2).extend = .done := by
  cases s with
  | nil => simp [concatStep]
  | cons e rest => cases e <;> simp [concatStep]

theorem pollConcat_ready_done (f : ConcatFut) (buf : Chunk) :
    (pollConcat f).1 = .ready buf → ((pollConcat f).2).extend = .done :=
  concatStep_ready_done f.stream f.extend buf

theorem pollConcat_done (f : ConcatFut) (h : f.extend = .done) :
    (∀ buf, (pollConcat f).1 ≠ .ready buf)
      ∧ ((pollConcat f).2).extend = .done := by
  rcases f with ⟨s, ext⟩
  cases h
  exact concatStep_done s

/-! ## The json future is the decode stage after accumulation -/

theorem driveJson_eq {T : Type} (dec : Chunk → Option T) :
    ∀ (n : Nat) (f : JsonFut),
      driveJson dec n f = decodeStage dec (driveConcat n f.concat) := by
  intro n
  induction n with
  | zero => intro f; rfl
  | succ n ih =>
    intro f
    simp only [driveJson, driveConcat, pollJson]
    rcases hp : pollConcat f.concat with ⟨r, f'⟩
    cases r with
    | notReady => simpa using ih ⟨f'⟩
    | ready buf => cases hd : dec buf <;> simp [decodeStage, hd]
    | error e => simp [decodeStage]
    | panicked => simp [decodeStage]

theorem runJson_eq {T : Type} (dec : Chunk → Option T) (f : JsonFut) :
    runJson dec f = decodeStage dec (runConcat f.concat) :=
  driveJson_eq dec _ f

/-! ## Counting decode attempts of the json future -/

/-- Ghost observation: whether one poll of a `JsonFut` attempts the decode,
i.e. whether the delegate accumulator reports Ready on this poll (the only
situation in which `JsonFut::poll` reaches `serde_json::from_slice`). -/
def decodeAttempted (f : JsonFut) : Bool :=
  match (pollConcat f.concat).1 with
  | .ready _ => true
  | _ => false

/-- Ghost observation: how many of the next `n` polls of a `JsonFut`
attempt the decode (the state evolves exactly as `pollJson` evolves it). -/
def decodeAttempts : Nat → JsonFut → Nat
  | 0, _ => 0
  | n + 1, f =>
    (if decodeAttempted f then 1 else 0)
      + decodeAttempts n ⟨(pollConcat f.concat).2⟩

theorem pollJson_state {T : Type} (dec : Chunk → Option T) (f : JsonFut) :
    (pollJson dec f).2 = ⟨(pollConcat f.concat).2⟩ := by
  simp only [pollJson]
  rcases hp : pollConcat f.concat with ⟨r, f'⟩
  cases r with
  | ready buf => cases hd : dec buf <;> simp [hd]
  | notReady => simp
  | error e => simp
  | panicked => simp

theorem decodeAttempts_done :
    ∀ (n : Nat) (f : JsonFut), f.concat.extend = .done →
      decodeAttempts n f = 0 := by
  intro n
  induction n with
  | zero => intro f h; rfl
  | succ n ih =>
    intro f h
    have h1 := (pollConcat_done f.concat h).1
    have h2 := (pollConcat_done f.concat h).2
    have hat : decodeAttempted f = false := by
      unfold decodeAttempted
      rcases hr : (pollConcat f.concat).1 with _ | buf | e | _
      · rfl
      · exact absurd hr (h1 buf)
      · rfl
      · rfl
    simp only [decodeAttempts, hat, if_false, Bool.false_eq_true, Nat.zero_add]
    exact ih ⟨(pollConcat f.concat).2⟩ h2

theorem decodeAttempts_le_one :
    ∀ (n : Nat) (f : JsonFut), decodeAttempts n f ≤ 1 := by
  intro n
  induction n with
  | zero => intro f; simp [decodeAttempts]
  | succ n ih =>
    intro f
    by_cases hat : decodeAttempted f = true
    · have hdone : ((pollConcat f.concat).2).extend = .done := by
        unfold decodeAttempted at hat
        rcases hr : (pollConcat f.concat).1 with _ | buf | e | _
        · rw [hr] at hat; simp at hat
        · exact pollConcat_ready_done f.concat buf hr
        · rw [hr] at hat; simp at hat
        · rw [hr] at hat; simp at hat
      have h0 := decodeAttempts_done n ⟨(pollConcat f.concat).2⟩ hdone
      simp [decodeAttempts, hat, h0]
    · have hat' : decodeAttempted f = false := by
        simpa using hat
      simpa [decodeAttempts, hat'] using ih ⟨(pollConcat f.concat).2⟩

/-! ## Filter algebra: body ownership and chaining -/

theorem applyF_body_mono :
    ∀ (e : FilterExpr) (rc : RouteContext),
      ((applyF e rc).2).body = rc.body ∨ ((applyF e rc).2).body = none := by
  intro e
  induction e with
  | pureF xs => intro rc; left; rfl
  | rejectF => intro rc; left; rfl
  | bodyF k =>
    intro rc
    right
    rcases h : rc.body with _ | b <;>
      simp [applyF, RouteContext.take_body, h]
  | chainF a b iha ihb =>
    intro rc
    rcases ha : applyF a rc with ⟨ra, rc'⟩
    have h1 := iha rc; rw [ha] at h1
    cases ra with
    | error e => simpa [applyF, ha] using h1
    | ok xs =>
      rcases hb : applyF b rc' with ⟨rb, rc''⟩
      have h2 := ihb rc'; rw [hb] at h2
      have hcomb : rc''.body = rc.body ∨ rc''.body = none := by
        rcases h2 with h2 | h2
        · rcases h1 with h1 | h1
          · left; rw [h2, h1]
          · right; rw [h2, h1]
        · right; exact h2
      cases rb <;> simpa [applyF, ha, hb] using hcomb
  | mapF a f iha =>
    intro rc
    rcases ha : applyF a rc with ⟨ra, rc'⟩
    have h1 := iha rc; rw [ha] at h1
    cases ra <;> simpa [applyF, ha] using h1

theorem takesF_of_none :
    ∀ (e : FilterExpr) (rc : RouteContext), rc.body = none → takesF e rc = 0 := by
  intro e
  induction e with
  | pureF xs => intro rc h; rfl
  | rejectF => intro rc h; rfl
  | bodyF k => intro rc h; simp [takesF, h]
  | chainF a b iha ihb =>
    intro rc h
    have hb' : ((applyF a rc).2).body = none := by
      rcases applyF_body_mono a rc with h1 | h1
      · rw [h1, h]
      · exact h1
    simp only [takesF]
    rw [iha rc h]
    rcases ha : applyF a rc with ⟨ra, rc'⟩
    rw [ha] at hb'
    cases ra with
    | ok xs => simpa using ihb rc' hb'
    | error e => simp
  | mapF a f iha => intro rc h; simpa [takesF] using iha rc h

theorem takesF_pos :
    ∀ (e : FilterExpr) (rc : RouteContext), 1 ≤ takesF e rc →
      ((applyF e rc).2).body = none := by
  intro e
  induction e with
  | pureF xs => intro rc h; simp [takesF] at h
  | rejectF => intro rc h; simp [takesF] at h
  | bodyF k =>
    intro rc h
    rcases hb : rc.body with _ | b <;>
      simp [applyF, RouteContext.take_body, hb]
  | chainF a b iha ihb =>
    intro rc h
    simp only [takesF] at h
    simp only [applyF]
    rcases ha : applyF a rc with ⟨ra, rc'⟩
    rw [ha] at h
    cases ra with
    | ok xs =>
      rcases hb : applyF b rc' with ⟨rb, rc''⟩
      have hB : rc''.body = none := by
        by_cases h1 : 1 ≤ takesF a rc
        · have hA := iha rc h1
          rw [ha] at hA
          rcases applyF_body_mono b rc' with hm | hm
          · rw [hb] at hm; rw [hm, hA]
          · rw [hb] at hm; exact hm
        · have h2 : 1 ≤ takesF b rc' := by
            simp only [Nat.not_le, Nat.lt_one_iff] at h1
            simpa [h1] using h
          have := ihb rc' h2
          rw [hb] at this
          exact this
      cases rb <;> simpa [hb] using hB
    | error e =>
      have hA := iha rc (by simpa using h)
      rw [ha] at hA
      simpa using hA
  | mapF a f iha =>
    intro rc h
    simp only [takesF] at h
    have hA := iha rc h
    simp only [applyF]
    rcases ha : applyF a rc with ⟨ra, rc'⟩
    rw [ha] at hA
    cases ra <;> simpa using hA

theorem takesF_le_one :
    ∀ (e : FilterExpr) (rc : RouteContext), takesF e rc ≤ 1 := by
  intro e
  induction e with
  | pureF xs => intro rc; simp [takesF]
  | rejectF => intro rc; simp [takesF]
  | bodyF k => intro rc; by_cases h : rc.body.isSome <;> simp [takesF, h]
  | chainF a b iha ihb =>
    intro rc
    rcases ha : applyF a rc with ⟨ra, rc'⟩
    cases ra with
    | ok xs =>
      by_cases h1 : 1 ≤ takesF a rc
      · have hA := takesF_pos a rc h1
        rw [ha] at hA
        have h0 := takesF_of_none b rc' hA
        have hle := iha rc
        simp only [takesF, ha, h0]
        omega
      · have h2 := ihb rc'
        simp only [Nat.not_le, Nat.lt_one_iff] at h1
        simp only [takesF, ha, h1]
        omega
    | error e =>
      have hle := iha rc
      simpa [takesF, ha] using hle
  | mapF a f iha => intro rc; simpa [takesF] using iha rc

theorem applyF_chain_assoc (a b c : FilterExpr) (rc : RouteContext) :
    applyF (.chainF (.chainF a b) c) rc = applyF (.chainF a (.chainF b c)) rc := by
  rcases ha : applyF a rc with ⟨ra, rc1⟩
  cases ra with
  | error e => simp [applyF, ha]
  | ok xs =>
    rcases hb : applyF b rc1 with ⟨rb, rc2⟩
    cases rb with
    | error e => simp [applyF, ha, hb]
    | ok ys =>
      rcases hc : applyF c rc2 with ⟨rr, rc3⟩
      cases rr with
      | error e => simp [applyF, ha, hb, hc]
      | ok zs => simp [applyF, ha, hb, hc, List.append_assoc]

/-! ## The claims -/

/-- C1: applying `concat()` to a Route Context whose body stream is
unavailable (already taken or never attached) fails the chain with the
BodyUnavailable rejection (the opaque marker): the request outcome is a
rejection — not a panic, and not a reply built from a substituted empty
body — and the application handler is never invoked. -/
theorem concat_unavailable_rejects {R : Type} (handler : Chunk → R)
    (rc : RouteContext) (h : rc.body = none) :
    runConcatRoute handler rc = (.rejectedReq .mk, false) := by
  simp [runConcatRoute, concat, RouteContext.take_body, h]

theorem concat_unavailable_rejects_witness :
    runConcatRoute (fun buf => buf.length)
        { body := none, method := 3, headers := [(1, 2)], pathRest := [7] }
      = (.rejectedReq .mk, false) :=
  concat_unavailable_rejects _ _ rfl

/-- C2: if driving the accumulator for a request yields the buffer `buf`,
then driving the `json` future on the same request yields exactly the
directly-decoded value when the buffer decodes, and the opaque rejection —
never a value — when the buffer is malformed. -/
theorem json_decodes_exactly {T : Type} (dec : Chunk → Option T) (s : Body)
    (buf : Chunk) (h : runConcat ⟨s, .first⟩ = .ready buf) :
    (∀ v, dec buf = some v → runJson dec ⟨⟨s, .first⟩⟩ = .ready v)
      ∧ (dec buf = none → runJson dec ⟨⟨s, .first⟩⟩ = .error .mk) := by
  constructor
  · intro v hv
    rw [runJson_eq]
    show decodeStage dec (runConcat ⟨s, .first⟩) = _
    rw [h]
    simp [decodeStage, hv]
  · intro hv
    rw [runJson_eq]
    show decodeStage dec (runConcat ⟨s, .first⟩) = _
    rw [h]
    simp [decodeStage, hv]

theorem json_decodes_exactly_witness :
    runJson (fun b => if b = [1, 2, 3] then some 42 else none)
        ⟨⟨[.chunk [1, 2], .notReady, .chunk [3], .eof], .first⟩⟩ = .ready 42 :=
  (json_decodes_exactly _ _ [1, 2, 3] (by decide)).1 42 (by decide)

/-- C3: whenever driving the Body Accumulator over a stream script yields a
Ready buffer, that buffer is exactly the concatenation, in arrival order, of
the chunks the script delivered — for every interleaving of polls with
chunk arrivals (NotReady responses standing anywhere in the script); no
chunk is dropped or reordered. -/
theorem concat_buffer_exact (s : Body) (buf : Chunk)
    (h : runConcat ⟨s, .first⟩ = .ready buf) :
    buf = (arrivedChunks s).flatten := by
  have h2 := runConcat_eq_accum ⟨s, .first⟩
  rw [h] at h2
  exact accum_first_ready s buf h2.symm

theorem concat_buffer_exact_witness :
    ([1, 2, 3] : Chunk)
      = (arrivedChunks [.chunk [1, 2], .notReady, .chunk [3], .eof]).flatten :=
  concat_buffer_exact _ [1, 2, 3] (by decide)

/-- C4 counterexample: after a decode failure the adapter is not
permanently Failed and does poll its delegate again: with stream script
`[eof, notReady]` and a decoder rejecting every buffer, the first poll
attempts the decode and fails, while the very next poll re-polls the
delegate — consuming its script — and reports NotReady (pending), not the
recorded failure. -/
theorem json_not_latched_after_failure :
    (pollJson (fun _ => (none : Option Nat)) ⟨⟨[.eof, .notReady], .first⟩⟩).1
        = .error .mk
      ∧ (pollJson (fun _ => (none : Option Nat))
          (pollJson (fun _ => (none : Option Nat))
            ⟨⟨[.eof, .notReady], .first⟩⟩).2).1
        = .notReady
      ∧ ((pollJson (fun _ => (none : Option Nat))
          (pollJson (fun _ => (none : Option Nat))
            ⟨⟨[.eof, .notReady], .first⟩⟩).2).2).concat.stream
        = [] := by
  decide

/-- C4 (amended): the decode is attempted at most once — in any sequence of
polls of a `JsonFut`, at most one poll sees its delegate report Ready, and
afterwards the delegate is finished and never reports Ready again — but the
adapter is not latched Failed: every poll re-polls the delegate (the json
state advances exactly as one delegate poll advances it) and surfaces the
delegate's pending, failure, or panic. -/
theorem decode_attempted_at_most_once {T : Type} (dec : Chunk → Option T)
    (n : Nat) (f : JsonFut) :
    decodeAttempts n f ≤ 1 ∧ (pollJson dec f).2 = ⟨(pollConcat f.concat).2⟩ :=
  ⟨decodeAttempts_le_one n f, pollJson_state dec f⟩

/-- C5: every failure of the three kinds surfaces as the same opaque
marker — a stream failure through the accumulator, a decode or stream
failure through the json future, and an unavailable body failing the
`concat` filter all carry the single marker `Error.mk`; a failed stage
short-circuits the chain (the second filter never runs and the failure is
returned unchanged); and no kind is retried by the core — after the stream
has failed, the accumulator's outcome is independent of whatever the stream
would have produced afterwards. -/
theorem failures_opaque_short_circuit_no_retry :
    (∀ (f : ConcatFut) (e : Error), runConcat f = .error e → e = .mk)
      ∧ (∀ (T : Type) (dec : Chunk → Option T) (f : JsonFut) (e : Error),
          runJson dec f = .error e → e = .mk)
      ∧ (∀ (rc : RouteContext), rc.body = none → concat rc = .rejected .mk)
      ∧ (∀ (g : FilterExpr) (rc : RouteContext),
          applyF (.chainF .rejectF g) rc = (.error .mk, rc))
      ∧ (∀ (pre post post' : Body) (ext : ConcatInner),
          runConcat ⟨pre ++ .fail :: post, ext⟩
            = runConcat ⟨pre ++ .fail :: post', ext⟩) := by
  refine ⟨?_, ?_, ?_, ?_, ?_⟩
  · intro f e _; cases e; rfl
  · intro T dec f e _; cases e; rfl
  · intro rc h; simp [concat, RouteContext.take_body, h]
  · intro g rc; simp [applyF]
  · intro pre post post' ext
    rw [runConcat_eq_accum, runConcat_eq_accum]
    exact accum_fail_irrel pre ext post post'

theorem failures_opaque_short_circuit_no_retry_witness :
    Error.mk = Error.mk
      ∧ concat { body := none, method := 0, headers := [], pathRest := [] }
          = .rejected .mk
      ∧ runConcat ⟨[.fail], .first⟩ = runConcat ⟨[.fail, .eof], .first⟩ :=
  ⟨failures_opaque_short_circuit_no_retry.1 ⟨[.fail], .first⟩ .mk (by decide),
   failures_opaque_short_circuit_no_retry.2.2.1 _ rfl,
   by
     have h5 := failures_opaque_short_circuit_no_retry.2.2.2.2 [] [] [.eof] .first
     simpa using h5⟩

/-- C6: `json` is observationally the two-stage reference of the spec:
driving the json future (one collapsed future whose poll inlines the decode
after its nested delegate) to completion yields exactly the outcome of
first driving the accumulator to completion and then decoding the
resulting buffer. -/
theorem json_eq_two_stage {T : Type} (dec : Chunk → Option T) (f : JsonFut) :
    runJson dec f = jsonRef dec f :=
  runJson_eq dec f

/-- C7 counterexample: re-polling a Body Accumulator after it yielded Ready
is not idempotent and can panic or fail: over the script `[eof, eof]` (an
ended stream keeps reporting end-of-stream) the first poll yields Ready
with the empty buffer and the next poll panics ("cannot poll Concat
again"); over a script whose ended stream errors, the next poll yields a
failure. -/
theorem concat_repoll_not_idempotent :
    pollConcat ⟨[.eof, .eof], .first⟩ = (.ready [], ⟨[.eof], .done⟩)
      ∧ (pollConcat ⟨[.eof], .done⟩).1 = .panicked
      ∧ (pollConcat ⟨[.fail], .done⟩).1 = .error .mk := by
  decide

/-- C7 (amended): once the accumulator has yielded Ready it is finished
(Done), and from the finished state no poll ever yields a Ready value again
— so the already-yielded buffer is never re-observed nor replaced by a
different value; a further poll instead pends, fails, or panics, and the
accumulator stays finished. -/
theorem concat_ready_is_final (f : ConcatFut) :
    (∀ buf, (pollConcat f).1 = .ready buf → ((pollConcat f).2).extend = .done)
      ∧ (f.extend = .done →
          (∀ buf, (pollConcat f).1 ≠ .ready buf)
            ∧ ((pollConcat f).2).extend = .done) :=
  ⟨fun buf h => pollConcat_ready_done f buf h, fun h => pollConcat_done f h⟩

theorem concat_ready_is_final_witness :
    ((pollConcat ⟨[.eof, .eof], .first⟩).2).extend = .done
      ∧ (pollConcat ⟨[.eof], .done⟩).1 ≠ .ready [5] :=
  ⟨(concat_ready_is_final ⟨[.eof, .eof], .first⟩).1 [] (by decide),
   ((concat_ready_is_final ⟨[.eof], .done⟩).2 rfl).1 [5]⟩

/-- C8 counterexample: the rejection type is a subsingleton — any two
rejection values are equal — and concretely a request rejected for an
already-consumed body and a request rejected for a malformed body produce
the very same marker, so no pair of rejection values differs and the
rejection value alone cannot distinguish the causes. -/
theorem rejections_indistinguishable :
    Subsingleton Error
      ∧ runConcatRoute (fun buf => buf.length)
          { body := none, method := 0, headers := [], pathRest := [] }
          = (.rejectedReq .mk, false)
      ∧ runJsonRoute (fun _ => (none : Option Nat)) (fun v => v)
          { body := some [.eof], method := 0, headers := [], pathRest := [] }
          = (.rejectedReq .mk, false) :=
  ⟨⟨fun a b => by cases a; cases b; rfl⟩, by decide, by decide⟩

/-- C8 (amended): the rejection delivered on failure is the single opaque
marker for every cause: for any pair of requests, one failing with a
malformed body and one failing with an already-consumed body, the two
rejection values produced are equal — the cause is observable only via the
side-channel diagnostics, never from the rejection value. -/
theorem rejection_values_all_equal {T R R' : Type}
    (handler : Chunk → R) (dec : Chunk → Option T) (handler' : T → R')
    (rc rc' : RouteContext) (e e' : Error) (b b' : Bool)
    (h : runConcatRoute handler rc = (.rejectedReq e, b))
    (h' : runJsonRoute dec handler' rc' = (.rejectedReq e', b')) :
    e = e' := by
  cases e; cases e'; rfl

theorem rejection_values_all_equal_witness : Error.mk = Error.mk :=
  rejection_values_all_equal (fun buf => buf.length)
    (fun _ => (none : Option Nat)) (fun v => v)
    { body := none, method := 0, headers := [], pathRest := [] }
    { body := some [.eof], method := 0, headers := [], pathRest := [] }
    .mk .mk false false (by decide) (by decide)

/-- C9: chaining is associative — `(A.chain(B)).chain(C)` and
`A.chain(B.chain(C))` applied to the same fresh Route Context produce
identical flattened extracted tuples in the same left-to-right order (or
the identical failure) and identical final contexts — and together the
chained filters consume the body stream at most once. -/
theorem chain_assoc_body_once (a b c : FilterExpr) (rc : RouteContext) :
    applyF (.chainF (.chainF a b) c) rc = applyF (.chainF a (.chainF b c)) rc
      ∧ takesF (.chainF (.chainF a b) c) rc ≤ 1 :=
  ⟨applyF_chain_assoc a b c rc, takesF_le_one _ rc⟩

/-- C10: the `concat` and `json` filter values are stateless (in the source
they are `Copy` closures capturing nothing): all mutable state lives in the
per-request Route Context and the freshly created future, so applying the
same filter to two independent Route Contexts with equal body stream
contents — method, headers and path may differ — yields equal outcomes, and
the filter value can be reused across requests without interference. -/
theorem filters_stateless {T R R' : Type} (handler : Chunk → R)
    (dec : Chunk → Option T) (handler' : T → R') (rc rc' : RouteContext)
    (h : rc.body = rc'.body) :
    runConcatRoute handler rc = runConcatRoute handler rc'
      ∧ runJsonRoute dec handler' rc = runJsonRoute dec handler' rc' := by
  cases hb : rc.body with
  | none =>
    have hb' : rc'.body = none := by rw [← h, hb]
    constructor <;>
      simp [runConcatRoute, runJsonRoute, json, concat,
        RouteContext.take_body, hb, hb']
  | some s =>
    have hb' : rc'.body = some s := by rw [← h, hb]
    constructor <;>
      simp [runConcatRoute, runJsonRoute, json, concat,
        RouteContext.take_body, hb, hb']

theorem filters_stateless_witness :
    runConcatRoute (fun buf => buf.length)
        { body := some [.chunk [9], .eof], method := 1,
          headers := [(1, 1)], pathRest := [2] }
      = runConcatRoute (fun buf => buf.length)
        { body := some [.chunk [9], .eof], method := 5,
          headers := [], pathRest := [] }
      ∧ runJsonRoute (fun b => some b.length) (fun v => v)
        { body := some [.chunk [9], .eof], method := 1,
          headers := [(1, 1)], pathRest := [2] }
      = runJsonRoute (fun b => some b.length) (fun v => v)
        { body := some [.chunk [9], .eof], method := 5,
          headers := [], pathRest := [] } :=
  filters_stateless _ _ _ _ _ rfl

end Warp
